import Mathlib

/-!
Verification development for the compiler front-end (lexer + recursive-descent
parser) of the-random-compiler.

Shallow embedding conventions:
* Rust `String` / `&str` values are modelled as `List Char` (the sources are
  ASCII by assumption of the code, which reads single bytes).
* The byte cursor of the in-memory lexer (`LexerBufferReader` backed by a
  `Cursor<String>`, used through `read_char` / `peek_char` only) is modelled as
  the list of characters still to be read: `read_char` is uncons, `peek_char`
  is `head?`.  The full `LexerBufferReader` (with its seek positions, peek slot
  and checkpoint stack, as used directly via `checkpoint`/`back`) is modelled
  separately below as `LexerBufferReader`.
* Fallible operations return `Except`/`Option`; mutation is explicit state
  passing.  `Lexer::next` mutates `self` even when it returns an error, so the
  embedding returns the follow-up state alongside the `Except` result.
* General recursion that Rust realizes by loops over a stream is embedded
  either structurally on the remaining character list or with an explicit
  fuel argument (`none`/fuel exhaustion is distinct from every real result).
-/

/-! ## Operators (src/lib/lexer/src/operator.rs) -/

/-- The operator enum.  The `Pointer` variant does not occur in
src/lib/lexer/src/operator.rs. Modelled from the spec: `FunctionDefinition`
requires a `->` operator not present in the enumerated operator set; the spec
directs to treat `->` as an additional operator lexeme (`Operator::Pointer`,
referenced by `parse_function_definition`). -/
inductive Operator where
  | Plus | Or | And | Minus | Mul | Div | Equal | Lesser | LesserEqual
  | Greater | GreaterEqual | Increment | Decrement
  | Pointer
  deriving DecidableEq, Repr

/-- `Operator::is_operator` -/
def Operator.is_operator (op : List Char) : Bool :=
  op = ['+'] || op = ['-'] || op = ['/'] || op = ['*'] || op = ['=', '='] ||
  op = ['<'] || op = ['<', '='] || op = ['>'] || op = ['>', '='] ||
  op = ['&', '&'] || op = ['|', '|'] || op = ['+', '+'] || op = ['-', '-']

/-- `impl From<&str> for Operator`.  The catch-all arm of the source panics
("Please no!"); the embedding returns `none` there.  Call sites in the lexer
are guarded by `Operator.is_operator`, for which the conversion is total
(`Operator.is_operator_fromWord_isSome`). -/
def Operator.fromWord (word : List Char) : Option Operator :=
  match word with
  | ['=', '='] => some .Equal
  | ['<', '='] => some .LesserEqual
  | ['>', '='] => some .GreaterEqual
  | ['&', '&'] => some .And
  | ['|', '|'] => some .Or
  | ['+', '+'] => some .Increment
  | ['-', '-'] => some .Decrement
  | word =>
    match word.head?.getD ' ' with
    | '+' => some .Plus
    | '-' => some .Minus
    | '/' => some .Div
    | '*' => some .Mul
    | '>' => some .Greater
    | '<' => some .Lesser
    | _ => none

/-- `impl Display for Operator` (with the spec-modelled `->` for `Pointer`). -/
def Operator.display (op : Operator) : List Char :=
  match op with
  | .And => ['&', '&']
  | .Or => ['|', '|']
  | .Plus => ['+']
  | .Minus => ['-']
  | .Mul => ['*']
  | .Div => ['/']
  | .Equal => ['=', '=']
  | .Lesser => ['<']
  | .LesserEqual => ['<', '=']
  | .Greater => ['>']
  | .GreaterEqual => ['>', '=']
  | .Increment => ['+', '+']
  | .Decrement => ['-', '-']
  | .Pointer => ['-', '>']

/-! ## Tokens (src/lib/lexer/src/token.rs) -/

/-- `KEYWORDS` -/
def KEYWORDS : List (List Char) :=
  [['i', 'f'], ['e', 'l', 'i', 'f'], ['e', 'l', 's', 'e'],
   ['w', 'h', 'i', 'l', 'e'], ['f', 'o', 'r'],
   ['r', 'e', 't', 'u', 'r', 'n'],
   ['c', 'o', 'n', 't', 'i', 'n', 'u', 'e'],
   ['b', 'r', 'e', 'a', 'k'], ['i', 'n', 't'], ['b', 'o', 'o', 'l'],
   ['s', 't', 'r', 'i', 'n', 'g'], ['c', 'h', 'a', 'r'],
   ['f', 'l', 'o', 'a', 't'], ['f', 'n']]

/-- `TokenClass` -/
inductive TokenClass where
  | Identifier | Keyword | Operator | Literal | Number | Boolean
  | Lparen | Rparen | LCurly | RCurly | Semi | Comma | Assignment | Error
  deriving DecidableEq, Repr

/-- `Token` -/
inductive Token where
  | Identifier (s : List Char)
  | Keyword (s : List Char)
  | Operator (op : Operator)
  | Literal (s : List Char)
  | Number (s : List Char)
  | Boolean (s : List Char)
  | Lparen | Rparen | LCurly | RCurly | Semi | Comma | Assignment
  | Error (s : List Char)
  deriving DecidableEq, Repr

/-- `Token::is_special_char` -/
def Token.is_special_char (c : Char) : Bool :=
  c = ';' || c = '(' || c = ')' || c = '{' || c = '}' || c = '=' || c = ','

/-- `Token::is_keyword` -/
def Token.is_keyword (word : List Char) : Bool :=
  KEYWORDS.any (fun keyword => keyword = word)

/-- `Token::is_string`: the Rust regex `^(".*?")$` matches exactly the words
that start and end with `"`, have length at least 2, and whose interior
contains no newline (`.` does not match `\n`). -/
def Token.is_string (word : List Char) : Bool :=
  decide (2 ≤ word.length) && word.head? = some '"' && word.getLast? = some '"'
    && ((word.drop 1).dropLast.all (fun c => c ≠ '\n'))

/-- `Token::is_number`: the Rust regex `^(\d+(\.\d+)?)$`. -/
def Token.is_number (word : List Char) : Bool :=
  let ds := word.takeWhile Char.isDigit
  let rest := word.dropWhile Char.isDigit
  decide (ds ≠ []) &&
    (rest = [] ||
      (rest.head? = some '.' && decide (rest.tail ≠ []) && rest.tail.all Char.isDigit))

/-- `Token::is_boolean`: the Rust regex `^true|false$` is an unanchored
alternation of `^true` and `false$`, so it matches any word that starts with
`true` or ends with `false`. -/
def Token.is_boolean (word : List Char) : Bool :=
  ['t', 'r', 'u', 'e'].isPrefixOf word || ['f', 'a', 'l', 's', 'e'].isSuffixOf word

/-- `Token::to_token_class` -/
def Token.to_token_class (t : Token) : TokenClass :=
  match t with
  | .Identifier _ => .Identifier
  | .Keyword _ => .Keyword
  | .Operator _ => .Operator
  | .Literal _ => .Literal
  | .Number _ => .Number
  | .Boolean _ => .Boolean
  | .Lparen => .Lparen
  | .Rparen => .Rparen
  | .LCurly => .LCurly
  | .RCurly => .RCurly
  | .Semi => .Semi
  | .Comma => .Comma
  | .Assignment => .Assignment
  | .Error _ => .Error

/-- `Token::extract_value` -/
def Token.extract_value (t : Token) : Option (List Char) :=
  match t with
  | .Identifier value | .Keyword value | .Literal value | .Error value
  | .Number value | .Boolean value => some value
  | .Operator value => some value.display
  | _ => none

/-- `impl PartialEq<TokenClass> for Token` -/
def Token.eqClass (t : Token) (other : TokenClass) : Bool :=
  t.to_token_class = other

/-- `impl Display for Token` -/
def Token.display (t : Token) : String :=
  match t with
  | .Identifier id => "IDENTIFIER: " ++ String.mk id
  | .Keyword key => "KEYWORD: " ++ String.mk key
  | .Operator op => "OPERATOR: " ++ String.mk op.display
  | .Literal value => "STRING: " ++ String.mk value
  | .Number value => "NUMBER: " ++ String.mk value
  | .Boolean value => "Boolean: " ++ String.mk value
  | .Lparen => "("
  | .Rparen => ")"
  | .LCurly => "\x7b"
  | .RCurly => "\x7d"
  | .Semi => ";"
  | .Comma => ","
  | .Assignment => "="
  | .Error error => "Failed to convert to token: " ++ String.mk error

/-- `impl Display for TokenClass` (strum's derived Display: the variant name). -/
def TokenClass.display (tc : TokenClass) : String :=
  match tc with
  | .Identifier => "Identifier"
  | .Keyword => "Keyword"
  | .Operator => "Operator"
  | .Literal => "Literal"
  | .Number => "Number"
  | .Boolean => "Boolean"
  | .Lparen => "Lparen"
  | .Rparen => "Rparen"
  | .LCurly => "LCurly"
  | .RCurly => "RCurly"
  | .Semi => "Semi"
  | .Comma => "Comma"
  | .Assignment => "Assignment"
  | .Error => "Error"

/-- `impl From<char> for Token` -/
def Token.fromChar (c : Char) : Token :=
  if Operator.is_operator [c] then .Operator ((Operator.fromWord [c]).getD .Plus)
  else if c = ';' then .Semi
  else if c = '(' then .Lparen
  else if c = ')' then .Rparen
  else if c = '{' then .LCurly
  else if c = '}' then .RCurly
  else if c = '=' then .Assignment
  else if c = ',' then .Comma
  else .Error (("Failed to parse character to a token: ").data ++ [c])

/-- `impl From<&str> for Token` -/
def Token.fromWord (word : List Char) : Token :=
  if Token.is_keyword word then .Keyword word
  else if Operator.is_operator word then .Operator ((Operator.fromWord word).getD .Plus)
  else if Token.is_boolean word then .Boolean word
  else if Token.is_string word then .Literal ((word.drop 1).dropLast)
  else if Token.is_number word then .Number word
  else if word.length = 1 then
    match Token.fromChar (word.head?.getD ' ') with
    | .Error _ => .Identifier word
    | token => token
  else .Identifier word

/-! ## The lexer (src/lib/lexer/src/lexer.rs) -/

/-- `LexerError` -/
inductive LexerError where
  | EndOfFileReached
  | FailedToReadNextLine
  | CannotOpenFile (path : List Char)
  deriving DecidableEq, Repr

/-- `TokenInfo` -/
structure TokenInfo where
  line : Nat
  start_column : Nat
  token : Token
  deriving DecidableEq, Repr

/-- `char::is_whitespace` restricted to the ASCII range the lexer reads
(single bytes): space and the control characters 0x09–0x0D. -/
def rustIsWhitespace (c : Char) : Bool :=
  c = ' ' || c = '\t' || c = '\n' || c = '\x0b' || c = '\x0c' || c = '\r'

/-- The body of `Lexer::next` after the peek-slot short-circuit: the
character-reading loop of lines 74–131 fused with the empty-word tail call of
line 134 (`return self.next()`), which re-enters the same loop with a reset
accumulator, `start_column = column + 1 = 1` and `start_line` the new line.
Arguments mirror the loop state: remaining characters, `self.line`,
`self.column`, `in_a_string`, `word`, `start_column`, `start_line`.
The result pairs the `Result` value with the final `(cursor, line, column)`
of the mutated `self`. -/
def lexNextGo : List Char → Nat → Nat → Bool → List Char → Nat → Nat →
    Except LexerError TokenInfo × (List Char × Nat × Nat)
  | [], line, column, _, word, sc, sl =>
    -- `while let Ok(char) = …` exits at end of stream; an empty word means the
    -- tail-recursive `self.next()` finds `peek_char` none: `EndOfFileReached`.
    if word.isEmpty then (.error .EndOfFileReached, ([], line, column))
    else (.ok ⟨sl, sc, Token.fromWord word⟩, ([], line, column))
  | c :: rest, line, column, inStr, word, sc, sl =>
    if c = '\n' then
      -- newline: bump line, reset column, break out of the loop
      if word.isEmpty then lexNextGo rest (line + 1) 0 false [] 1 (line + 1)
      else (.ok ⟨sl, sc, Token.fromWord word⟩, (rest, line + 1, 0))
    else
      let column := column + 1
      let nextChar := rest.head?.getD ' '
      if !inStr && rustIsWhitespace c then
        if !word.isEmpty then (.ok ⟨sl, sc, Token.fromWord word⟩, (rest, line, column))
        else lexNextGo rest line column inStr word (sc + 1) sl
      else if !inStr && nextChar ≠ ' ' && Operator.is_operator [c, nextChar] then
        -- greedy two-character operator: consume the peeked character too
        (.ok ⟨sl, sc, Token.Operator ((Operator.fromWord [c, nextChar]).getD .Plus)⟩,
          (rest.tail, line, column + 1))
      else if !inStr && (Token.is_special_char c || Operator.is_operator [c]) then
        (.ok ⟨sl, sc, Token.fromChar c⟩, (rest, line, column))
      else
        let word := word ++ [c]
        let inStr := if c = '"' then !inStr else inStr
        if !inStr && Token.is_special_char nextChar then
          (.ok ⟨sl, sc, Token.fromWord word⟩, (rest, line, column))
        else lexNextGo rest line column inStr word sc sl

/-- `Lexer::next` for a lexer with an empty peek slot, acting on
`(cursor, line, column)`.  (The initial `peek_char().is_none()` check
coincides with the empty-cursor, empty-word case of `lexNextGo`.) -/
def lexerNextRaw (cursor : List Char) (line column : Nat) :
    Except LexerError TokenInfo × (List Char × Nat × Nat) :=
  lexNextGo cursor line column false [] (column + 1) line

/-- Driving `Lexer::next` until `EndOfFileReached`: the token stream of an
input.  Every emitted token consumes at least one character, so
`length + 1` calls suffice. -/
def lexAllGo : Nat → List Char → Nat → Nat → List TokenInfo
  | 0, _, _, _ => []
  | fuel + 1, cursor, line, column =>
    match lexerNextRaw cursor line column with
    | (.error _, _) => []
    | (.ok ti, (cursor', line', column')) => ti :: lexAllGo fuel cursor' line' column'

/-- All tokens of an input, from a fresh `Lexer` (`line = 1`, `column = 0`). -/
def lexAll (code : List Char) : List TokenInfo :=
  lexAllGo (code.length + 1) code 1 0

/-- Lexer state: `Lexer { line, column, cursor, peeked }` with the in-memory
cursor as the remaining characters. -/
structure LexerState where
  line : Nat
  column : Nat
  cursor : List Char
  peeked : Option TokenInfo
  deriving DecidableEq, Repr

/-- `Lexer::new` -/
def Lexer.new (code : List Char) : LexerState := ⟨1, 0, code, none⟩

/-- `Lexer::next` on the full lexer state (peek-slot `take()` first). -/
def lexerNext (s : LexerState) : Except LexerError TokenInfo × LexerState :=
  match s.peeked with
  | some ti => (.ok ti, { s with peeked := none })
  | none =>
    match lexerNextRaw s.cursor s.line s.column with
    | (r, (cursor', line', column')) => (r, ⟨line', column', cursor', none⟩)

/-- `Lexer::peek` -/
def lexerPeek (s : LexerState) : Option TokenInfo × LexerState :=
  match s.peeked with
  | some ti => (some ti, s)
  | none =>
    match lexerNext s with
    | (.ok ti, s') => (some ti, { s' with peeked := some ti })
    | (.error _, s') => (none, s')

/-! ## Parse nodes (src/lib/parser/src/parse_node.rs) -/

/-- `NodeKind` -/
inductive NodeKind where
  | Block | Program | Expression
  | Statement | ForLoopStatement | ReturnStatement | ControlFlowBlock
  | ConditionStatement | AssignmentStatement
  | Argument | Arguments | FunctionCall | FunctionDefinition
  | Identifier | Keyword | Operator | Literal | Number | Boolean
  | Lparen | Rparen | LCurly | RCurly | Semi | Comma | Assignment | Error
  deriving DecidableEq, Repr

/-- `impl From<&TokenClass> for NodeKind` -/
def NodeKind.fromClass (value : TokenClass) : NodeKind :=
  match value with
  | .Identifier => .Identifier
  | .Keyword => .Keyword
  | .Operator => .Operator
  | .Literal => .Literal
  | .Number => .Number
  | .Boolean => .Boolean
  | .Lparen => .Lparen
  | .Rparen => .Rparen
  | .LCurly => .LCurly
  | .RCurly => .RCurly
  | .Semi => .Semi
  | .Comma => .Comma
  | .Assignment => .Assignment
  | .Error => .Error

/-- `Loc` -/
structure Loc where
  line : Nat
  column : Nat
  deriving DecidableEq, Repr

/-- `ParseNode` -/
inductive ParseNode where
  | mk (loc : Loc) (kind : NodeKind) (value : Option (List Char))
      (children : List ParseNode)
  deriving Repr

namespace ParseNode

def loc : ParseNode → Loc
  | .mk l _ _ _ => l

def kind : ParseNode → NodeKind
  | .mk _ k _ _ => k

def value : ParseNode → Option (List Char)
  | .mk _ _ v _ => v

def children : ParseNode → List ParseNode
  | .mk _ _ _ c => c

/-- `ParseNode::add_child` -/
def add_child (p : ParseNode) (node : ParseNode) : ParseNode :=
  .mk (if p.children.length = 0 then node.loc else p.loc) p.kind p.value
    (p.children ++ [node])

end ParseNode

/-! ## The recursive-descent parser
(src/lib/parser/src/parsers/recursive_descent_parser.rs and
src/lib/parser/src/parsers/mod.rs).

The parser interacts with its lexer only through `peek` and `next`.  For an
in-memory input those are exactly head / uncons of the lexed token stream (one
level of `peek` memoization replays `next`'s last result), so the parser is
embedded over the token stream `List TokenInfo` produced by `lexAll`:
`lexer.peek()` is `head?`, `lexer.next()` is uncons-or-`EndOfFileReached`. -/

/-- `ParserError` -/
inductive ParserError where
  | LexerError (e : LexerError)
  | UnexpectedToken (expected actual : String)
  deriving DecidableEq, Repr

/-- The token stream a parser's lexer will produce. -/
abbrev TokenStream := List TokenInfo

/-- `self.lexer.peek()` seen through the token stream. -/
def streamPeek (ts : TokenStream) : Option TokenInfo := ts.head?

/-- `self.lexer.next()` seen through the token stream. -/
def streamNext (ts : TokenStream) : Except LexerError (TokenInfo × TokenStream) :=
  match ts with
  | [] => .error .EndOfFileReached
  | ti :: rest => .ok (ti, rest)

/-- Result-with-state of a parser method: `none` is fuel exhaustion (the
embedding's bound on loop/recursion depth), otherwise the `ParserResult`
together with the final lexer stream (kept also on error: the Rust methods
mutate `self` before failing). -/
abbrev PM (α : Type) := TokenStream → Option (Except ParserError α × TokenStream)

/-- Sequencing that mirrors `?`: errors propagate, keeping the stream. -/
def pmBind (m : PM α) (k : α → PM β) : PM β := fun ts =>
  match m ts with
  | none => none
  | some (.ok a, ts') => k a ts'
  | some (.error e, ts') => some (.error e, ts')

def pmPure (a : α) : PM α := fun ts => some (.ok a, ts)

/-- Lift an infallible-in-fuel parser method. -/
def pmOf (f : TokenStream → Except ParserError α × TokenStream) : PM α :=
  fun ts => some (f ts)

/-- `RecursiveDescentParser::eat` -/
def eat (token : TokenClass) (ts : TokenStream) :
    Except ParserError ParseNode × TokenStream :=
  let peeked := streamPeek ts
  let node : Option ParseNode :=
    match peeked with
    | some token_info =>
      if token_info.token.eqClass token then
        some (.mk ⟨token_info.line, token_info.start_column⟩
          (NodeKind.fromClass token) token_info.token.extract_value [])
      else none
    | none => none
  let actual_token : String :=
    match peeked with
    | some token_info => token_info.token.display
    | none => "Unknown"
  match node with
  | some node =>
    match streamNext ts with
    | .ok (_, ts') => (.ok node, ts')
    | .error e => (.error (.LexerError e), ts)
  | none => (.error (.UnexpectedToken token.display actual_token), ts)

/-- The `" or "`-joined expected-classes message of `eat_any_of`. -/
def orJoin (tokens : List TokenClass) : String :=
  tokens.foldl
    (fun buffer token =>
      (if buffer.length ≠ 0 then buffer ++ " or " else buffer) ++ token.display)
    ""

/-- `RecursiveDescentParser::eat_any_of` -/
def eat_any_of (tokens : List TokenClass) (ts : TokenStream) :
    Except ParserError ParseNode × TokenStream :=
  match tokens with
  | token :: rest =>
    match eat token ts with
    | (.ok node, ts') => (.ok node, ts')
    | (.error _, _) => eat_any_of rest ts
  | [] =>
    let actual_token : String :=
      match streamPeek ts with
      | some token_info => token_info.token.display
      | none => "Unknown"
    (.error (.UnexpectedToken (orJoin tokens) actual_token), ts)

/-- `RecursiveDescentParser::eat_exact`: note that it consumes via
`self.lexer.next()?` before comparing. -/
def eat_exact (token : Token) (ts : TokenStream) :
    Except ParserError ParseNode × TokenStream :=
  match streamNext ts with
  | .error e => (.error (.LexerError e), ts)
  | .ok (token_info, ts') =>
    if token_info.token = token then
      (.ok (.mk ⟨token_info.line, token_info.start_column⟩
        (NodeKind.fromClass token_info.token.to_token_class)
        token_info.token.extract_value []), ts')
    else
      (.error (.UnexpectedToken token.display token_info.token.display), ts')

/-- `RecursiveDescentParser::is_next_exact` -/
def is_next_exact (token : Token) (ts : TokenStream) : Bool :=
  match streamPeek ts with
  | some token_info => token_info.token = token
  | none => false

/-- `RecursiveDescentParser::is_next` -/
def is_next (token : TokenClass) (ts : TokenStream) : Bool :=
  match streamPeek ts with
  | some token_info => token_info.token.eqClass token
  | none => false

/-- `RecursiveDescentParser::is_next_exact_any_of` -/
def is_next_exact_any_of (tokens : List Token) (ts : TokenStream) : Bool :=
  tokens.any (fun token => is_next_exact token ts)

/-- `RecursiveDescentParser::is_next_any_of` -/
def is_next_any_of (tokens : List TokenClass) (ts : TokenStream) : Bool :=
  tokens.any (fun token => is_next token ts)

/-- Fresh node seeds: every production starts from
`ParseNode { loc: (1,1), kind, value: None, children: vec![] }`. -/
def seed (kind : NodeKind) : ParseNode := .mk ⟨1, 1⟩ kind none []

mutual

/-- `RecursiveDescentParser::parse_expression` -/
def parse_expression : Nat → PM ParseNode
  | 0 => fun _ => none
  | fuel + 1 => fun ts =>
    if is_next .Lparen ts then
      (pmBind (pmOf (eat .Lparen)) fun l_paren =>
        -- `expression.loc = l_paren.loc.clone()`
        let expression := ParseNode.mk l_paren.loc .Expression none []
        pmBind (parse_expression fuel) fun inner =>
        pmBind (pmOf (eat .Rparen)) fun r_paren =>
        parse_expression_tail fuel
          (((expression.add_child l_paren).add_child inner).add_child r_paren)) ts
    else
      (pmBind (pmOf (eat_any_of [.Identifier, .Boolean, .Number, .Literal])) fun leaf =>
        parse_expression_tail fuel ((seed .Expression).add_child leaf)) ts

/-- The trailing operator handling shared by both branches of
`parse_expression` (postfix `++`, else right-recursive operator tail). -/
def parse_expression_tail : Nat → ParseNode → PM ParseNode
  | 0, _ => fun _ => none
  | fuel + 1, expression => fun ts =>
    if is_next_exact (.Operator .Increment) ts then
      (pmBind (pmOf (eat .Operator)) fun op => pmPure (expression.add_child op)) ts
    else if is_next .Operator ts then
      (pmBind (pmOf (eat .Operator)) fun op =>
       pmBind (parse_expression fuel) fun rhs =>
       pmPure ((expression.add_child op).add_child rhs)) ts
    else pmPure expression ts

/-- `while !self.is_next(&TokenClass::RCurly) { block.add_child(self.parse_statement()?); }` -/
def parse_block_loop : Nat → ParseNode → PM ParseNode
  | 0, _ => fun _ => none
  | fuel + 1, block => fun ts =>
    if !is_next .RCurly ts then
      (pmBind (parse_statement fuel) fun s =>
        parse_block_loop fuel (block.add_child s)) ts
    else pmPure block ts

/-- `RecursiveDescentParser::parse_block` -/
def parse_block : Nat → PM ParseNode
  | 0 => fun _ => none
  | fuel + 1 =>
    pmBind (pmOf (eat .LCurly)) fun lc =>
    pmBind (parse_block_loop fuel ((seed .Block).add_child lc)) fun block =>
    pmBind (pmOf (eat .RCurly)) fun rc =>
    pmPure (block.add_child rc)

/-- `RecursiveDescentParser::parse_control_flow_block` -/
def parse_control_flow_block : Nat → PM ParseNode
  | 0 => fun _ => none
  | fuel + 1 =>
    pmBind (pmOf (eat .Lparen)) fun lp =>
    pmBind (parse_expression fuel) fun e =>
    pmBind (pmOf (eat .Rparen)) fun rp =>
    pmBind (parse_block fuel) fun b =>
    pmPure (((((seed .ControlFlowBlock).add_child lp).add_child e).add_child rp).add_child b)

/-- `RecursiveDescentParser::parse_for_loop_statement` -/
def parse_for_loop_statement : Nat → PM ParseNode
  | 0 => fun _ => none
  | fuel + 1 =>
    pmBind (pmOf (eat .Keyword)) fun k =>
    pmBind (pmOf (eat .Lparen)) fun lp =>
    pmBind (parse_assignment_statement fuel) fun init =>
    pmBind (parse_expression fuel) fun cond =>
    pmBind (pmOf (eat .Semi)) fun semi =>
    pmBind (parse_expression fuel) fun step =>
    pmBind (pmOf (eat .Rparen)) fun rp =>
    pmBind (parse_block fuel) fun b =>
    pmPure ((((((((seed .ForLoopStatement).add_child k).add_child lp).add_child
      init).add_child cond).add_child semi).add_child step).add_child rp
      |>.add_child b)

/-- `RecursiveDescentParser::parse_condition_statement` -/
def parse_condition_statement : Nat → PM ParseNode
  | 0 => fun _ => none
  | fuel + 1 =>
    pmBind (pmOf (eat .Keyword)) fun k =>
    pmBind (parse_control_flow_block fuel) fun b =>
    pmPure (((seed .ConditionStatement).add_child k).add_child b)

/-- `while !self.is_next(&TokenClass::Semi) { statement.add_child(self.parse_expression()?); }` -/
def parse_assignment_loop : Nat → ParseNode → PM ParseNode
  | 0, _ => fun _ => none
  | fuel + 1, statement => fun ts =>
    if !is_next .Semi ts then
      (pmBind (parse_expression fuel) fun e =>
        parse_assignment_loop fuel (statement.add_child e)) ts
    else pmPure statement ts

/-- `RecursiveDescentParser::parse_assignment_statement` -/
def parse_assignment_statement : Nat → PM ParseNode
  | 0 => fun _ => none
  | fuel + 1 =>
    pmBind (pmOf (eat .Keyword)) fun k =>
    pmBind (pmOf (eat .Identifier)) fun i =>
    pmBind (pmOf (eat .Assignment)) fun a =>
    pmBind (parse_assignment_loop fuel
      ((((seed .AssignmentStatement).add_child k).add_child i).add_child a)) fun st =>
    pmBind (pmOf (eat .Semi)) fun s =>
    pmPure (st.add_child s)

/-- `RecursiveDescentParser::parse_argument` -/
def parse_argument : Nat → PM ParseNode
  | 0 => fun _ => none
  | _fuel + 1 =>
    pmBind (pmOf (eat .Keyword)) fun k =>
    pmBind (pmOf (eat .Identifier)) fun i =>
    pmPure (((seed .Argument).add_child k).add_child i)

/-- `while !self.is_next(&TokenClass::Rparen) { statement.add_child(self.parse_argument()?); }` -/
def parse_arguments_loop : Nat → ParseNode → PM ParseNode
  | 0, _ => fun _ => none
  | fuel + 1, statement => fun ts =>
    if !is_next .Rparen ts then
      (pmBind (parse_argument fuel) fun a =>
        parse_arguments_loop fuel (statement.add_child a)) ts
    else pmPure statement ts

/-- `RecursiveDescentParser::parse_arguments` -/
def parse_arguments : Nat → PM ParseNode
  | 0 => fun _ => none
  | fuel + 1 =>
    pmBind (pmOf (eat .Lparen)) fun lp =>
    pmBind (parse_arguments_loop fuel ((seed .Arguments).add_child lp)) fun st =>
    pmBind (pmOf (eat .Rparen)) fun rp =>
    pmPure (st.add_child rp)

/-- `RecursiveDescentParser::parse_function_definition` -/
def parse_function_definition : Nat → PM ParseNode
  | 0 => fun _ => none
  | fuel + 1 =>
    pmBind (pmOf (eat_exact (.Keyword ['f', 'n']))) fun fnk =>
    pmBind (pmOf (eat .Identifier)) fun i =>
    pmBind (parse_arguments fuel) fun args =>
    pmBind (pmOf (eat_exact (.Operator .Pointer))) fun arrow =>
    pmBind (pmOf (eat .Keyword)) fun ret =>
    pmBind (parse_block fuel) fun b =>
    pmPure ((((((seed .FunctionDefinition).add_child fnk).add_child i).add_child
      args).add_child arrow).add_child ret |>.add_child b)

/-- `while !self.is_next(&TokenClass::Semi) { statement.add_child(self.parse_expression()?); }` -/
def parse_return_loop : Nat → ParseNode → PM ParseNode
  | 0, _ => fun _ => none
  | fuel + 1, statement => fun ts =>
    if !is_next .Semi ts then
      (pmBind (parse_expression fuel) fun e =>
        parse_return_loop fuel (statement.add_child e)) ts
    else pmPure statement ts

/-- `RecursiveDescentParser::parse_return_statement` -/
def parse_return_statement : Nat → PM ParseNode
  | 0 => fun _ => none
  | fuel + 1 =>
    pmBind (pmOf (eat_exact (.Keyword ['r', 'e', 't', 'u', 'r', 'n']))) fun r =>
    pmBind (parse_return_loop fuel ((seed .ReturnStatement).add_child r)) fun st =>
    pmBind (pmOf (eat .Semi)) fun s =>
    pmPure (st.add_child s)

/-- `RecursiveDescentParser::parse_keyword_statement` -/
def parse_keyword_statement : Nat → PM ParseNode
  | 0 => fun _ => none
  | fuel + 1 => fun ts =>
    if is_next_exact_any_of
        [.Keyword ['i', 'f'], .Keyword ['w', 'h', 'i', 'l', 'e']] ts then
      parse_condition_statement fuel ts
    else if is_next_exact (.Keyword ['f', 'o', 'r']) ts then
      parse_for_loop_statement fuel ts
    else if is_next_exact (.Keyword ['f', 'n']) ts then
      parse_function_definition fuel ts
    else if is_next_exact (.Keyword ['r', 'e', 't', 'u', 'r', 'n']) ts then
      parse_return_statement fuel ts
    else
      parse_assignment_statement fuel ts

/-- `RecursiveDescentParser::parse_function_call_statement` -/
def parse_function_call_statement : Nat → PM ParseNode
  | 0 => fun _ => none
  | fuel + 1 =>
    pmBind (pmOf (eat .Identifier)) fun i =>
    pmBind (pmOf (eat .Lparen)) fun lp =>
    pmBind (parse_expression fuel) fun e =>
    pmBind (pmOf (eat .Rparen)) fun rp =>
    pmBind (pmOf (eat .Semi)) fun s =>
    pmPure (((((seed .FunctionCall).add_child i).add_child lp).add_child
      e).add_child rp |>.add_child s)

/-- `RecursiveDescentParser::parse_statement` -/
def parse_statement : Nat → PM ParseNode
  | 0 => fun _ => none
  | fuel + 1 => fun ts =>
    if is_next .Keyword ts then parse_keyword_statement fuel ts
    else parse_function_call_statement fuel ts

/-- `while let Some(_) = self.lexer.peek() { root.add_child(self.parse_statement()?); }` -/
def parse_program_loop : Nat → ParseNode → PM ParseNode
  | 0, _ => fun _ => none
  | fuel + 1, root => fun ts =>
    match streamPeek ts with
    | some _ =>
      (pmBind (parse_statement fuel) fun s =>
        parse_program_loop fuel (root.add_child s)) ts
    | none => pmPure root ts

/-- `RecursiveDescentParser::parse_program` -/
def parse_program : Nat → PM ParseNode
  | 0 => fun _ => none
  | fuel + 1 => parse_program_loop fuel (seed .Program)

end

/-- `RecursiveDescentParser::parse` on an in-memory input, through the
`lexAll` token stream.  Each fuel unit feeds one level of
production-procedure nesting and one loop iteration; productions nest at
most a constant deeper than the token count and each iteration consumes a
token, so `4 * length + 8` covers every real run. -/
def parse (code : List Char) : Option (Except ParserError ParseNode × TokenStream) :=
  parse_program (4 * code.length + 8) (lexAll code)

/-! ## The checkpointable buffer reader (src/lib/lexer/src/buffer.rs)

Modelled with the full underlying buffer and a physical cursor position, so
that `stream_position`/`seek` (and hence `checkpoint`/`back`) are meaningful:
`read_exact` of one byte is `data.get? pos`. -/

/-- `LexerBufferReader` over an in-memory buffer. -/
structure LexerBufferReader where
  data : List Char
  pos : Nat
  peeked_char : Option Char
  last_positions : List Nat
  deriving DecidableEq, Repr

namespace LexerBufferReader

/-- `LexerBufferReader::new` -/
def new (data : List Char) : LexerBufferReader := ⟨data, 0, none, []⟩

/-- `LexerBufferReader::read_char` (`Err` at end of stream is `none`). -/
def read_char (r : LexerBufferReader) : Option Char × LexerBufferReader :=
  match r.peeked_char with
  | some c => (some c, { r with peeked_char := none })
  | none =>
    match r.data[r.pos]? with
    | some c => (some c, { r with pos := r.pos + 1 })
    | none => (none, r)

/-- `LexerBufferReader::peek_char` -/
def peek_char (r : LexerBufferReader) : Option Char × LexerBufferReader :=
  match r.peeked_char with
  | some c => (some c, r)
  | none =>
    match r.read_char with
    | (some c, r') => (some c, { r' with peeked_char := some c })
    | (none, r') => (none, r')

/-- `LexerBufferReader::checkpoint` (`stream_position` cannot fail on the
in-memory buffer, so the `Err` branch is unreachable). -/
def checkpoint (r : LexerBufferReader) : LexerBufferReader :=
  { r with last_positions :=
      (if r.peeked_char.isSome then r.pos - 1 else r.pos) :: r.last_positions }

/-- `LexerBufferReader::back` -/
def back (r : LexerBufferReader) : Option Nat × LexerBufferReader :=
  match r.last_positions with
  | [] => (none, r)
  | pos :: rest =>
    (some pos, { r with pos := pos, peeked_char := none, last_positions := rest })

/-- A read operation (the claim's "any reads"). -/
inductive ReadOp where
  | read | peek
  deriving DecidableEq, Repr

/-- Run one read operation for its effect on the reader. -/
def applyOp (r : LexerBufferReader) : ReadOp → LexerBufferReader
  | .read => r.read_char.2
  | .peek => r.peek_char.2

/-- Run a sequence of reads. -/
def applyOps (r : LexerBufferReader) (ops : List ReadOp) : LexerBufferReader :=
  ops.foldl applyOp r

/-- The character sequence observable from a reader state: the cached peeked
character (if any) followed by the unread rest of the buffer.  `read_char` and
`peek_char` observe exactly this sequence. -/
def obs (r : LexerBufferReader) : List Char :=
  (match r.peeked_char with
   | some c => [c]
   | none => []) ++ r.data.drop r.pos

/-- Cache consistency: a cached peeked character was physically read from the
position just before the cursor.  Holds for `new` and is preserved by every
operation (`inv_new`, `inv_applyOp`). -/
def inv (r : LexerBufferReader) : Prop :=
  match r.peeked_char with
  | some c => 1 ≤ r.pos ∧ r.data[r.pos - 1]? = some c
  | none => True

instance (r : LexerBufferReader) : Decidable r.inv := by
  unfold inv
  exact match r.peeked_char with
  | some _ => inferInstanceAs (Decidable (_ ∧ _))
  | none => inferInstanceAs (Decidable True)

end LexerBufferReader

/-! ## Supporting lemmas: buffer reader -/

namespace LexerBufferReader

theorem read_char_data (r : LexerBufferReader) : r.read_char.2.data = r.data := by
  unfold read_char
  rcases r.peeked_char with _ | c
  · rcases h : r.data[r.pos]? with _ | c <;> simp [h]
  · simp

theorem read_char_last_positions (r : LexerBufferReader) :
    r.read_char.2.last_positions = r.last_positions := by
  unfold read_char
  rcases r.peeked_char with _ | c
  · rcases h : r.data[r.pos]? with _ | c <;> simp [h]
  · simp

theorem peek_char_data (r : LexerBufferReader) : r.peek_char.2.data = r.data := by
  unfold peek_char
  rcases r.peeked_char with _ | c
  · rcases h : r.read_char with ⟨_ | c, r'⟩ <;>
      simpa [h] using congrArg (fun p => p.2.data) h ▸ r.read_char_data
  · simp

theorem peek_char_last_positions (r : LexerBufferReader) :
    r.peek_char.2.last_positions = r.last_positions := by
  unfold peek_char
  rcases r.peeked_char with _ | c
  · rcases h : r.read_char with ⟨_ | c, r'⟩ <;>
      simpa [h] using congrArg (fun p => p.2.last_positions) h ▸ r.read_char_last_positions
  · simp

theorem applyOp_data (r : LexerBufferReader) (op : ReadOp) :
    (r.applyOp op).data = r.data := by
  cases op
  · exact r.read_char_data
  · exact r.peek_char_data

theorem applyOp_last_positions (r : LexerBufferReader) (op : ReadOp) :
    (r.applyOp op).last_positions = r.last_positions := by
  cases op
  · exact r.read_char_last_positions
  · exact r.peek_char_last_positions

theorem applyOps_data (r : LexerBufferReader) (ops : List ReadOp) :
    (r.applyOps ops).data = r.data := by
  induction ops generalizing r with
  | nil => rfl
  | cons op ops ih => simpa [applyOps, applyOp_data] using
      (ih (r.applyOp op)).trans (applyOp_data r op)

theorem applyOps_last_positions (r : LexerBufferReader) (ops : List ReadOp) :
    (r.applyOps ops).last_positions = r.last_positions := by
  induction ops generalizing r with
  | nil => rfl
  | cons op ops ih => simpa [applyOps] using
      (ih (r.applyOp op)).trans (applyOp_last_positions r op)

end LexerBufferReader

/-! ## Claim C6 -/

/-- C6: after `checkpoint()`, any sequence of `read_char`/`peek_char` reads
followed by `back()` restores the stream: `back` succeeds, the recorded
position is the physical cursor (minus one when a character was peeked but
not consumed at checkpoint time), and the observable character sequence after
`back` equals the one observable just before `checkpoint`. -/
theorem checkpoint_back_restores (r : LexerBufferReader) (hinv : r.inv)
    (ops : List LexerBufferReader.ReadOp) :
    ∃ r2, (r.checkpoint.applyOps ops).back =
        (some (if r.peeked_char.isSome then r.pos - 1 else r.pos), r2)
      ∧ r2.obs = r.obs := by
  set q := if r.peeked_char.isSome then r.pos - 1 else r.pos with hq
  set s := r.checkpoint.applyOps ops with hs
  have hlp : s.last_positions = q :: r.last_positions := by
    rw [hs, LexerBufferReader.applyOps_last_positions]
    rfl
  have hdata : s.data = r.data := by
    rw [hs, LexerBufferReader.applyOps_data]
    rfl
  refine ⟨⟨s.data, q, none, r.last_positions⟩, ?_, ?_⟩
  · unfold LexerBufferReader.back
    rw [hlp]
  · show (match (none : Option Char) with
      | some c => [c]
      | none => []) ++ s.data.drop q = r.obs
    rw [hdata]
    unfold LexerBufferReader.obs LexerBufferReader.inv at *
    rcases hp : r.peeked_char with _ | c
    · simp [hq, hp]
    · rw [hp] at hinv
      obtain ⟨hpos, hget⟩ := hinv
      obtain ⟨hlt, hgetc⟩ := List.getElem?_eq_some.mp hget
      have hdrop : r.data.drop (r.pos - 1) = c :: r.data.drop r.pos := by
        have h1 := List.drop_eq_getElem_cons hlt
        have h2 : r.data[r.pos - 1] = c := by simpa using hgetc
        have h3 : r.pos - 1 + 1 = r.pos := by omega
        rw [h3] at h1
        rw [h1, h2]
      simp [hq, hp, hdrop]

/-- C6 witness: a reader on "ab" that has already peeked (but not consumed)
its first character satisfies the cache invariant, and
checkpoint–reads–back restores its observable stream. -/
theorem checkpoint_back_restores_witness :
    (LexerBufferReader.mk ['a', 'b'] 1 (some 'a') []).inv ∧
    ∃ r2, ((LexerBufferReader.mk ['a', 'b'] 1 (some 'a') []).checkpoint.applyOps
        [.read, .peek]).back =
      (some (if (LexerBufferReader.mk ['a', 'b'] 1 (some 'a') []).peeked_char.isSome
        then (LexerBufferReader.mk ['a', 'b'] 1 (some 'a') []).pos - 1
        else (LexerBufferReader.mk ['a', 'b'] 1 (some 'a') []).pos), r2)
      ∧ r2.obs = (LexerBufferReader.mk ['a', 'b'] 1 (some 'a') []).obs :=
  ⟨by decide, checkpoint_back_restores (LexerBufferReader.mk ['a', 'b'] 1 (some 'a') [])
    (by decide) [.read, .peek]⟩

/-- The cache invariant holds for a fresh reader. -/
theorem LexerBufferReader.inv_new (data : List Char) :
    (LexerBufferReader.new data).inv := trivial

/-- The invariant in quantified form. -/
theorem LexerBufferReader.inv_iff (r : LexerBufferReader) :
    r.inv ↔ ∀ c, r.peeked_char = some c → 1 ≤ r.pos ∧ r.data[r.pos - 1]? = some c := by
  unfold inv
  rcases hp : r.peeked_char with _ | c <;> simp [hp]

/-- `read_char` always leaves the peek slot empty or untouched-and-empty. -/
theorem LexerBufferReader.read_char_peeked (r : LexerBufferReader) :
    r.read_char.2.peeked_char = none ∨ r.read_char.2 = r := by
  unfold read_char
  rcases hp : r.peeked_char with _ | c
  · rcases hg : r.data[r.pos]? with _ | c <;> simp [hp, hg]
  · simp [hp]

/-- The cache invariant is preserved by `read_char`. -/
theorem LexerBufferReader.inv_read_char (r : LexerBufferReader) (h : r.inv) :
    r.read_char.2.inv := by
  rcases r.read_char_peeked with hn | he
  · rw [LexerBufferReader.inv_iff]
    intro c hc
    rw [hn] at hc
    cases hc
  · rwa [he]

/-- The cache invariant is preserved by `peek_char`. -/
theorem LexerBufferReader.inv_peek_char (r : LexerBufferReader) (h : r.inv) :
    r.peek_char.2.inv := by
  unfold peek_char read_char
  rcases hp : r.peeked_char with _ | d
  · rcases hg : r.data[r.pos]? with _ | d
    · simp only [hp, hg]
      exact h
    · simp only [hp, hg]
      rw [LexerBufferReader.inv_iff]
      intro c hc
      obtain rfl : d = c := by simpa using hc
      refine ⟨by simp, by simpa using hg⟩
  · simp only [hp]
    exact h

/-- The cache invariant is preserved by `checkpoint`. -/
theorem LexerBufferReader.inv_checkpoint (r : LexerBufferReader) (h : r.inv) :
    r.checkpoint.inv := by
  rw [LexerBufferReader.inv_iff] at h ⊢
  exact h

/-- The cache invariant is preserved by `back`. -/
theorem LexerBufferReader.inv_back (r : LexerBufferReader) (h : r.inv) :
    r.back.2.inv := by
  unfold back
  rcases hl : r.last_positions with _ | ⟨p, rest⟩
  · exact h
  · rw [LexerBufferReader.inv_iff]
    intro c hc
    cases hc

/-! ## Claim C4 -/

/-- C4 counterexample: `eat_exact` on a mismatched token (`return` expected,
`fn` next) fails with `UnexpectedToken` but has consumed the mismatched
token: the resulting stream starts at the following token, not at `fn`. -/
theorem eat_exact_consumes_on_mismatch :
    eat_exact (.Keyword ['r', 'e', 't', 'u', 'r', 'n'])
        [⟨1, 1, .Keyword ['f', 'n']⟩, ⟨1, 4, .Identifier ['x']⟩]
      = (.error (.UnexpectedToken "KEYWORD: return" "KEYWORD: fn"),
         [⟨1, 4, .Identifier ['x']⟩])
    ∧ streamPeek [(⟨1, 4, .Identifier ['x']⟩ : TokenInfo)]
        ≠ some ⟨1, 1, .Keyword ['f', 'n']⟩ :=
  ⟨rfl, by decide⟩

/-- C4 (amended): `eat_exact` requires equality including payload, and it
always consumes the next token first (`self.lexer.next()?`): on success and
on `UnexpectedToken` failure alike, the stream is left just past the
inspected token. -/
theorem eat_exact_spec (token : Token) (ti : TokenInfo) (rest : TokenStream) :
    (ti.token = token →
      eat_exact token (ti :: rest) =
        (.ok (.mk ⟨ti.line, ti.start_column⟩
          (NodeKind.fromClass ti.token.to_token_class) ti.token.extract_value []),
         rest))
    ∧ (ti.token ≠ token →
      eat_exact token (ti :: rest) =
        (.error (.UnexpectedToken token.display ti.token.display), rest)) := by
  constructor <;> intro h <;> simp [eat_exact, streamNext, h]

/-- C4 witness: the amended description at a concrete mismatched stream. -/
theorem eat_exact_spec_witness :
    ((⟨1, 1, Token.Semi⟩ : TokenInfo).token ≠ Token.Assignment)
    ∧ eat_exact .Assignment [⟨1, 1, .Semi⟩, ⟨1, 2, .Comma⟩] =
        (.error (.UnexpectedToken Token.Assignment.display Token.Semi.display),
         [⟨1, 2, .Comma⟩]) :=
  ⟨by decide, (eat_exact_spec .Assignment ⟨1, 1, .Semi⟩ [⟨1, 2, .Comma⟩]).2 (by decide)⟩

/-! ## Claim C8 -/

/-- C8: parsing `"int a"` fails with `UnexpectedToken` whose expected
component is `"Assignment"` (the lexer is exhausted, so the actual component
is `"Unknown"`); the embedding is total, so no panic occurs. -/
theorem parse_int_a_fails_expecting_assignment :
    parse ['i', 'n', 't', ' ', 'a'] =
      some (.error (.UnexpectedToken "Assignment" "Unknown"), []) := rfl

/-! ## Claim C1 -/

/-- C1 counterexample: on `"int a = 3;"` the `Program` node's only child is
the `AssignmentStatement` node itself — there is no intermediate `Statement`
node (`parse_statement` returns the dispatched production's node directly). -/
theorem parse_program_child_not_statement :
    (match parse ['i', 'n', 't', ' ', 'a', ' ', '=', ' ', '3', ';'] with
     | some (.ok root, _) => root.children.map ParseNode.kind
     | _ => []) = [NodeKind.AssignmentStatement]
    ∧ NodeKind.AssignmentStatement ≠ NodeKind.Statement :=
  ⟨rfl, by decide⟩

/-- C1 (amended): parsing `"int a = 3;"` succeeds with
`Program → AssignmentStatement → [Keyword("int")@1:1, Identifier("a")@1:5,
Assignment@1:7, Expression → Number("3")@1:9, Semi@1:10]`; the
`AssignmentStatement` node is the `Program` node's direct child. -/
theorem parse_int_assignment_tree :
    parse ['i', 'n', 't', ' ', 'a', ' ', '=', ' ', '3', ';'] =
      some (.ok (.mk ⟨1, 1⟩ .Program none
        [.mk ⟨1, 1⟩ .AssignmentStatement none
          [.mk ⟨1, 1⟩ .Keyword (some ['i', 'n', 't']) [],
           .mk ⟨1, 5⟩ .Identifier (some ['a']) [],
           .mk ⟨1, 7⟩ .Assignment none [],
           .mk ⟨1, 9⟩ .Expression none [.mk ⟨1, 9⟩ .Number (some ['3']) []],
           .mk ⟨1, 10⟩ .Semi none []]]), []) := rfl

/-! ## Claim C5 -/

/-- C5: each of the two-character operators `==`, `<=`, `>=`, `++`, `--`
lexes greedily to exactly one `Operator` token (not two one-character
tokens). -/
theorem greedy_two_char_operators :
    lexAll ['=', '='] = [⟨1, 1, .Operator .Equal⟩]
    ∧ lexAll ['<', '='] = [⟨1, 1, .Operator .LesserEqual⟩]
    ∧ lexAll ['>', '='] = [⟨1, 1, .Operator .GreaterEqual⟩]
    ∧ lexAll ['+', '+'] = [⟨1, 1, .Operator .Increment⟩]
    ∧ lexAll ['-', '-'] = [⟨1, 1, .Operator .Decrement⟩] := by
  decide

/-! ## Claim C3 counterexample -/

/-- C3 counterexample: for the quoted content `"\n"` (a single newline
between the quotes) the first token is `Identifier("\"")` — the newline
check runs before the in-string check and aborts the scan — so the lexer
does not emit a `Literal` with the quoted content. -/
theorem literal_newline_counterexample :
    (lexerNextRaw ['"', '\n', '"'] 1 0).1 = .ok ⟨1, 1, .Identifier ['"']⟩
    ∧ (Token.Identifier ['"']).to_token_class ≠ TokenClass.Literal
    ∧ Token.Identifier ['"'] ≠ .Literal ['\n'] :=
  ⟨rfl, by decide, by decide⟩

/-! ## Claim C9 -/

/-- C9: `peek` is idempotent — once `peek` returns a token, peeking again
returns the same `TokenInfo` and the same state — and the following `next`
returns that same `TokenInfo` while clearing the memoized value (the
stream state is otherwise unchanged, so the peek after it computes the
following token from the cursor). -/
theorem peek_idempotent (s : LexerState) (ti : TokenInfo) (s1 : LexerState)
    (h : lexerPeek s = (some ti, s1)) :
    lexerPeek s1 = (some ti, s1)
    ∧ lexerNext s1 = (.ok ti, { s1 with peeked := none }) := by
  unfold lexerPeek at h
  rcases hp : s.peeked with _ | t0 <;> rw [hp] at h
  · rcases hn : lexerNext s with ⟨r, s'⟩
    rcases r with e | t <;> simp only [hn] at h
    · simp at h
    · rw [Prod.mk.injEq] at h
      obtain ⟨h1, rfl⟩ := h
      obtain rfl : t = ti := by injection h1
      exact ⟨rfl, rfl⟩
  · rw [Prod.mk.injEq] at h
    obtain ⟨h1, rfl⟩ := h
    obtain rfl : t0 = ti := by injection h1
    refine ⟨?_, ?_⟩ <;> simp [lexerPeek, lexerNext, hp]

/-- C9 witness: peeking a fresh lexer on `"a"`. -/
theorem peek_idempotent_witness :
    lexerPeek (Lexer.new ['a']) =
      (some ⟨1, 1, .Identifier ['a']⟩,
       ⟨1, 1, [], some ⟨1, 1, .Identifier ['a']⟩⟩)
    ∧ lexerPeek ⟨1, 1, [], some ⟨1, 1, .Identifier ['a']⟩⟩ =
        (some ⟨1, 1, .Identifier ['a']⟩,
         ⟨1, 1, [], some ⟨1, 1, .Identifier ['a']⟩⟩)
    ∧ lexerNext ⟨1, 1, [], some ⟨1, 1, .Identifier ['a']⟩⟩ =
        (.ok ⟨1, 1, .Identifier ['a']⟩, ⟨1, 1, [], none⟩) :=
  ⟨by decide,
   peek_idempotent (Lexer.new ['a']) ⟨1, 1, .Identifier ['a']⟩
     ⟨1, 1, [], some ⟨1, 1, .Identifier ['a']⟩⟩ (by decide)⟩

/-! ## Claim C2 -/

/-- C2: `parse_function_definition` realizes
`FunctionDefinition := 'fn' Identifier Arguments '->' Keyword Block`:
after the exact keyword `fn`, an `Identifier`, and an `Arguments` list, the
next token must be the `->` operator (`Operator::Pointer`, modelled from the
spec) — any other token fails with `UnexpectedToken("OPERATOR: ->", …)` —
and with it the parse proceeds through the return-type `Keyword` and the
`Block`. -/
theorem parse_function_definition_requires_arrow :
    (∀ (f : Nat) (name : List Char) (t5 : Token) (rest : TokenStream),
      t5 ≠ .Operator .Pointer →
      parse_function_definition (f + 3)
          (⟨1, 1, .Keyword ['f', 'n']⟩ :: ⟨1, 1, .Identifier name⟩ ::
           ⟨1, 1, .Lparen⟩ :: ⟨1, 1, .Rparen⟩ :: ⟨1, 1, t5⟩ :: rest) =
        some (.error (.UnexpectedToken "OPERATOR: ->" t5.display), rest))
    ∧ (∀ (f : Nat) (name k : List Char) (rest : TokenStream),
      parse_function_definition (f + 3)
          (⟨1, 1, .Keyword ['f', 'n']⟩ :: ⟨1, 1, .Identifier name⟩ ::
           ⟨1, 1, .Lparen⟩ :: ⟨1, 1, .Rparen⟩ :: ⟨1, 1, .Operator .Pointer⟩ ::
           ⟨1, 1, .Keyword k⟩ :: ⟨1, 1, .LCurly⟩ :: ⟨1, 1, .RCurly⟩ :: rest) =
        some (.ok (.mk ⟨1, 1⟩ .FunctionDefinition none
          [.mk ⟨1, 1⟩ .Keyword (some ['f', 'n']) [],
           .mk ⟨1, 1⟩ .Identifier (some name) [],
           .mk ⟨1, 1⟩ .Arguments none
             [.mk ⟨1, 1⟩ .Lparen none [], .mk ⟨1, 1⟩ .Rparen none []],
           .mk ⟨1, 1⟩ .Operator (some ['-', '>']) [],
           .mk ⟨1, 1⟩ .Keyword (some k) [],
           .mk ⟨1, 1⟩ .Block none
             [.mk ⟨1, 1⟩ .LCurly none [], .mk ⟨1, 1⟩ .RCurly none []]]), rest)) := by
  constructor
  · intro f name t5 rest h
    cases t5 with
    | Operator op => cases op <;> first | rfl | exact absurd rfl h
    | _ => rfl
  · intro f name k rest
    rfl

/-- C2 witness: `fn x ( ) ;` fails at the missing `->`; with
`-> int { }` it succeeds. -/
theorem parse_function_definition_requires_arrow_witness :
    (Token.Semi ≠ Token.Operator .Pointer)
    ∧ parse_function_definition 3
        [⟨1, 1, .Keyword ['f', 'n']⟩, ⟨1, 1, .Identifier ['x']⟩,
         ⟨1, 1, .Lparen⟩, ⟨1, 1, .Rparen⟩, ⟨1, 1, .Semi⟩] =
        some (.error (.UnexpectedToken "OPERATOR: ->" Token.Semi.display), [])
    ∧ parse_function_definition 3
        [⟨1, 1, .Keyword ['f', 'n']⟩, ⟨1, 1, .Identifier ['x']⟩,
         ⟨1, 1, .Lparen⟩, ⟨1, 1, .Rparen⟩, ⟨1, 1, .Operator .Pointer⟩,
         ⟨1, 1, .Keyword ['i', 'n', 't']⟩, ⟨1, 1, .LCurly⟩, ⟨1, 1, .RCurly⟩] =
        some (.ok (.mk ⟨1, 1⟩ .FunctionDefinition none
          [.mk ⟨1, 1⟩ .Keyword (some ['f', 'n']) [],
           .mk ⟨1, 1⟩ .Identifier (some ['x']) [],
           .mk ⟨1, 1⟩ .Arguments none
             [.mk ⟨1, 1⟩ .Lparen none [], .mk ⟨1, 1⟩ .Rparen none []],
           .mk ⟨1, 1⟩ .Operator (some ['-', '>']) [],
           .mk ⟨1, 1⟩ .Keyword (some ['i', 'n', 't']) [],
           .mk ⟨1, 1⟩ .Block none
             [.mk ⟨1, 1⟩ .LCurly none [], .mk ⟨1, 1⟩ .RCurly none []]]), []) :=
  ⟨by decide,
   parse_function_definition_requires_arrow.1 0 ['x'] .Semi [] (by decide),
   parse_function_definition_requires_arrow.2 0 ['x'] ['i', 'n', 't'] []⟩

/-! ## Claim C10 -/

theorem fromWord_not_error (word : List Char) :
    (Token.fromWord word).to_token_class ≠ TokenClass.Error := by
  have hchar : ∀ c : Char,
      (match Token.fromChar c with
       | Token.Error _ => Token.Identifier word
       | token => token).to_token_class ≠ TokenClass.Error := by
    intro c
    rcases Token.fromChar c with s | s | op | s | s | s | _ | _ | _ | _ | _ | _ | _ | s <;>
      simp [Token.to_token_class]
  unfold Token.fromWord
  split_ifs with h1 h2 h3 h4 h5 h6 <;>
    first
      | exact hchar _
      | simp [Token.to_token_class]

theorem fromChar_not_error (c : Char)
    (h : (Token.is_special_char c || Operator.is_operator [c]) = true) :
    (Token.fromChar c).to_token_class ≠ TokenClass.Error := by
  unfold Token.fromChar
  split_ifs with h1 h2 h3 h4 h5 h6 h7 h8 <;> try simp [Token.to_token_class]
  simp [Operator.is_operator] at h1
  simp [Token.is_special_char, Operator.is_operator, h2, h3, h4, h5, h6, h7, h8] at h
  tauto

theorem lexNextGo_not_error :
    ∀ (cursor : List Char) (line col : Nat) (inStr : Bool) (word : List Char)
      (sc sl : Nat) (ti : TokenInfo) (st : List Char × Nat × Nat),
      lexNextGo cursor line col inStr word sc sl = (.ok ti, st) →
      ti.token.to_token_class ≠ TokenClass.Error := by
  intro cursor
  induction cursor with
  | nil =>
    intro line col inStr word sc sl ti st h
    simp only [lexNextGo] at h
    split at h
    · cases h
    · rw [Prod.mk.injEq] at h
      obtain ⟨h1, -⟩ := h
      injection h1 with h1
      subst h1
      exact fromWord_not_error word
  | cons c rest ih =>
    intro line col inStr word sc sl ti st h
    simp only [lexNextGo] at h
    split at h
    · split at h
      · exact ih _ _ _ _ _ _ _ _ h
      · rw [Prod.mk.injEq] at h
        obtain ⟨h1, -⟩ := h
        injection h1 with h1
        subst h1
        exact fromWord_not_error word
    · split at h
      · split at h
        · rw [Prod.mk.injEq] at h
          obtain ⟨h1, -⟩ := h
          injection h1 with h1
          subst h1
          exact fromWord_not_error word
        · exact ih _ _ _ _ _ _ _ _ h
      · split at h
        · rw [Prod.mk.injEq] at h
          obtain ⟨h1, -⟩ := h
          injection h1 with h1
          subst h1
          simp [Token.to_token_class]
        · split at h
          · rename_i hguard
            rw [Prod.mk.injEq] at h
            obtain ⟨h1, -⟩ := h
            injection h1 with h1
            subst h1
            exact fromChar_not_error c ((Bool.and_eq_true _ _ |>.mp hguard).2)
          · split at h
            all_goals split at h
            all_goals
              first
                | exact ih _ _ _ _ _ _ _ _ h
                | (rw [Prod.mk.injEq] at h
                   obtain ⟨h1, -⟩ := h
                   injection h1 with h1
                   subst h1
                   exact fromWord_not_error _)

/-- C10: `Lexer::next` never returns a `Token::Error`: every token produced
by the scan loop is either a two-character `Operator`, a `Token::from(char)`
of a special character or single-character operator (never `Error` for
those), or a `Token::from(&str)` of the accumulated word — and the word
classifier maps every string to a non-`Error` variant (a single character
that the char classifier would map to `Error` is promoted to `Identifier`).
-/
theorem lexer_never_emits_error_token (cursor : List Char) (line column : Nat)
    (ti : TokenInfo) (st : List Char × Nat × Nat)
    (h : lexerNextRaw cursor line column = (.ok ti, st)) :
    ti.token.to_token_class ≠ TokenClass.Error :=
  lexNextGo_not_error cursor line column false [] (column + 1) line ti st h

/-- C10 witness: `#` classifies to `Error` as a character but lexes to an
`Identifier` token. -/
theorem lexer_never_emits_error_token_witness :
    lexerNextRaw ['#'] 1 0 = (.ok ⟨1, 1, .Identifier ['#']⟩, ([], 1, 1))
    ∧ (Token.Identifier ['#']).to_token_class ≠ TokenClass.Error :=
  ⟨rfl, lexer_never_emits_error_token ['#'] 1 0 ⟨1, 1, .Identifier ['#']⟩
    ([], 1, 1) rfl⟩

/-! ## Claim C3 (amended) -/

/-- The word classifier on a quoted word with no interior newline. -/
theorem fromWord_quoted (s : List Char) (h2 : '\n' ∉ s) :
    Token.fromWord ('"' :: s ++ ['"']) = .Literal s := by
  unfold Token.fromWord
  rw [if_neg, if_neg, if_neg, if_pos]
  · show Token.Literal ((('"' :: s ++ ['"']).drop 1).dropLast) = Token.Literal s
    have : ('"' :: s ++ ['"']).drop 1 = s ++ ['"'] := rfl
    rw [this, List.dropLast_concat]
  · -- is_string
    simp only [Token.is_string]
    refine (Bool.and_eq_true _ _).mpr ⟨(Bool.and_eq_true _ _).mpr
      ⟨(Bool.and_eq_true _ _).mpr ⟨?_, ?_⟩, ?_⟩, ?_⟩
    · simp
    · simp
    · show decide ((('"' :: s) ++ ['"']).getLast? = some '"') = true
      rw [List.getLast?_concat]
      simp
    · have : ('"' :: s ++ ['"']).drop 1 = s ++ ['"'] := rfl
      rw [this, List.dropLast_concat]
      simp only [List.all_eq_true]
      intro c hc
      have : c ≠ '\n' := fun hcc => h2 (hcc ▸ hc)
      simpa using this
  · simp [Token.is_boolean, List.isPrefixOf, List.isSuffixOf, List.reverse_append]
  · simp [Operator.is_operator]
  · simp [Token.is_keyword, KEYWORDS]

/-- In-string scanning accumulates every character (no `"`, no newline)
up to and including the closing quote, then classifies the word. -/
theorem lexNextGo_in_string :
    ∀ (s : List Char), '"' ∉ s → '\n' ∉ s →
    ∀ (w : List Char) (line col sc sl : Nat),
      lexNextGo (s ++ ['"']) line col true w sc sl =
        (.ok ⟨sl, sc, Token.fromWord (w ++ s ++ ['"'])⟩, ([], line, col + s.length + 1)) := by
  intro s
  induction s with
  | nil =>
    intro _ _ w line col sc sl
    simp [lexNextGo, Token.is_special_char]
  | cons c s ih =>
    intro h1 h2 w line col sc sl
    obtain ⟨hc1, h1'⟩ : ¬ '"' = c ∧ '"' ∉ s := by
      simpa [List.mem_cons] using h1
    obtain ⟨hc2, h2'⟩ : ¬ '\n' = c ∧ '\n' ∉ s := by
      simpa [List.mem_cons] using h2
    show lexNextGo (c :: (s ++ ['"'])) line col true w sc sl = _
    simp only [lexNextGo]
    rw [if_neg (fun hh => hc2 hh.symm)]
    simp only [Bool.not_true, Bool.false_and, Bool.and_self_left]
    rw [if_neg (by simp), if_neg (by simp), if_neg (by simp)]
    have hin : (if c = '"' then false else true) = true := by
      rw [if_neg (fun hh => hc1 hh.symm)]
    simp only [hin, Bool.not_true, Bool.false_and, Bool.false_eq_true, if_false]
    rw [ih h1' h2']
    simp [List.append_assoc]
    omega

/-- C3 (amended): for content `s` with no `"` and no newline,
lexing `"s"` emits exactly one token, `Literal s`, and the next call ends
with `EndOfFileReached`. -/
theorem lexer_literal_roundtrip (s : List Char) (h1 : '"' ∉ s) (h2 : '\n' ∉ s) :
    lexerNextRaw ('"' :: s ++ ['"']) 1 0 =
      (.ok ⟨1, 1, .Literal s⟩, ([], 1, s.length + 2))
    ∧ (lexerNextRaw [] 1 (s.length + 2)).1 = .error .EndOfFileReached := by
  refine ⟨?_, rfl⟩
  show lexNextGo ('"' :: (s ++ ['"'])) 1 0 false [] 1 1 = _
  have hstep : lexNextGo ('"' :: (s ++ ['"'])) 1 0 false [] 1 1 =
      lexNextGo (s ++ ['"']) 1 1 true ['"'] 1 1 := by
    simp [lexNextGo, rustIsWhitespace, Token.is_special_char, Operator.is_operator]
  rw [hstep, lexNextGo_in_string s h1 h2 ['"'] 1 1 1 1]
  simp only [List.cons_append, List.nil_append]
  rw [← List.cons_append, fromWord_quoted s h2]
  have harith : 1 + s.length + 1 = s.length + 2 := by omega
  rw [harith]

/-- C3 witness: the literal `"hi"`. -/
theorem lexer_literal_roundtrip_witness :
    ('"' ∉ ['h', 'i'] ∧ '\n' ∉ ['h', 'i'])
    ∧ (lexerNextRaw ('"' :: ['h', 'i'] ++ ['"']) 1 0 =
        (.ok ⟨1, 1, .Literal ['h', 'i']⟩, ([], 1, ['h', 'i'].length + 2))
      ∧ (lexerNextRaw [] 1 (['h', 'i'].length + 2)).1 = .error .EndOfFileReached) :=
  ⟨⟨by decide, by decide⟩, lexer_literal_roundtrip ['h', 'i'] (by decide) (by decide)⟩

/-! ## Claim C7 -/

/-- Leading non-newline whitespace is skipped, advancing column and start
column by its width. -/

theorem lexNextGo_skip_ws :
    ∀ (w1 : List Char), (∀ d ∈ w1, rustIsWhitespace d = true ∧ d ≠ '\n') →
    ∀ (cursor : List Char) (line col sc sl : Nat),
      lexNextGo (w1 ++ cursor) line col false [] sc sl =
        lexNextGo cursor line (col + w1.length) false [] (sc + w1.length) sl := by
  intro w1
  induction w1 with
  | nil => intro _ cursor line col sc sl; simp
  | cons d w1 ih =>
    intro hw cursor line col sc sl
    obtain ⟨⟨hd1, hd2⟩, hw'⟩ : (rustIsWhitespace d = true ∧ d ≠ '\n')
        ∧ ∀ e ∈ w1, rustIsWhitespace e = true ∧ e ≠ '\n' := by
      constructor
      · exact hw d (List.mem_cons_self d w1)
      · intro e he
        exact hw e (List.mem_cons_of_mem d he)
    show lexNextGo (d :: (w1 ++ cursor)) line col false [] sc sl = _
    simp only [lexNextGo]
    rw [if_neg hd2]
    rw [if_pos (by simp [hd1])]
    rw [if_neg (by simp)]
    rw [ih hw' cursor line (col + 1) (sc + 1) sl]
    have h1 : col + 1 + w1.length = col + (w1.length + 1) := by omega
    have h2 : sc + 1 + w1.length = sc + (w1.length + 1) := by omega
    rw [h1, h2]
    rfl

/-- An all-whitespace cursor always ends in `EndOfFileReached`. -/
theorem lexNextGo_all_ws :
    ∀ (w : List Char), (∀ d ∈ w, rustIsWhitespace d = true) →
    ∀ (line col sc sl : Nat),
      (lexNextGo w line col false [] sc sl).1 = .error .EndOfFileReached := by
  intro w
  induction w with
  | nil => intro _ line col sc sl; rfl
  | cons d w ih =>
    intro hw line col sc sl
    have hd : rustIsWhitespace d = true := hw d (List.mem_cons_self d w)
    have hw' : ∀ e ∈ w, rustIsWhitespace e = true :=
      fun e he => hw e (List.mem_cons_of_mem d he)
    show (lexNextGo (d :: w) line col false [] sc sl).1 = _
    simp only [lexNextGo]
    by_cases hdn : d = '\n'
    · rw [if_pos hdn, if_pos (by simp)]
      exact ih hw' (line + 1) 0 1 (line + 1)
    · rw [if_neg hdn, if_pos (by simp [hd]), if_neg (by simp)]
      exact ih hw' line (col + 1) (sc + 1) sl

/-- Shift a scan result's start column. -/
def shiftResult (r : Except LexerError TokenInfo) (k : Nat) :
    Except LexerError TokenInfo :=
  match r with
  | .ok ti => .ok ⟨ti.line, ti.start_column + k, ti.token⟩
  | .error e => .error e

/-- The scan is uniform in the starting column for newline-free input: the
branches never inspect `column`/`start_column`, which only shift. -/
theorem lexNextGo_shift :
    ∀ (t : List Char), '\n' ∉ t →
    ∀ (line col : Nat) (inStr : Bool) (word : List Char) (sc sl k : Nat)
      (r : Except LexerError TokenInfo) (rest : List Char) (l2 c2 : Nat),
      lexNextGo t line col inStr word sc sl = (r, (rest, l2, c2)) →
      lexNextGo t line (col + k) inStr word (sc + k) sl =
        (shiftResult r k, (rest, l2, c2 + k)) := by
  intro t
  induction t with
  | nil =>
    intro hn line col inStr word sc sl k r rest l2 c2 h
    simp only [lexNextGo] at h ⊢
    split at h <;> rename_i hw <;>
      simp only [hw, if_true, if_false] <;>
      · rw [Prod.mk.injEq, Prod.mk.injEq, Prod.mk.injEq] at h
        obtain ⟨h1, h2, h3, h4⟩ := h
        subst h1; subst h2; subst h3; subst h4
        simp [shiftResult]
  | cons c t ih =>
    intro hn line col inStr word sc sl k r rest l2 c2 h
    have hc : ¬ c = '\n' := fun hh => hn (hh ▸ List.mem_cons_self c t)
    have hn' : '\n' ∉ t := fun hh => hn (List.mem_cons_of_mem c hh)
    simp only [lexNextGo] at h ⊢
    rw [if_neg hc] at h ⊢
    split at h <;> rename_i h2
    · -- whitespace
      rw [if_pos h2]
      split at h <;> rename_i h3
      · rw [if_pos h3]
        rw [Prod.mk.injEq, Prod.mk.injEq, Prod.mk.injEq] at h
        obtain ⟨h4, h5, h6, h7⟩ := h
        subst h4; subst h5; subst h6; subst h7
        simp [shiftResult] <;> omega
      · rw [if_neg h3]
        have := ih hn' line (col + 1) inStr word (sc + 1) sl k r rest l2 c2 h
        have e1 : col + k + 1 = col + 1 + k := by omega
        have e2 : sc + k + 1 = sc + 1 + k := by omega
        rw [e1, e2]
        exact this
    · rw [if_neg h2]
      split at h <;> rename_i h3
      · -- two-char operator
        rw [if_pos h3]
        rw [Prod.mk.injEq, Prod.mk.injEq, Prod.mk.injEq] at h
        obtain ⟨h4, h5, h6, h7⟩ := h
        subst h4; subst h5; subst h6; subst h7
        simp [shiftResult] <;> omega
      · rw [if_neg h3]
        split at h <;> rename_i h4
        · -- special char
          rw [if_pos h4]
          rw [Prod.mk.injEq, Prod.mk.injEq, Prod.mk.injEq] at h
          obtain ⟨h5, h6, h7, h8⟩ := h
          subst h5; subst h6; subst h7; subst h8
          simp [shiftResult] <;> omega
        · rw [if_neg h4]
          by_cases hq : c = '"'
          · simp only [if_pos hq] at h ⊢
            split at h <;> rename_i h5
            · rw [if_pos h5]
              rw [Prod.mk.injEq, Prod.mk.injEq, Prod.mk.injEq] at h
              obtain ⟨h6, h7, h8, h9⟩ := h
              subst h6; subst h7; subst h8; subst h9
              simp [shiftResult] <;> omega
            · rw [if_neg h5]
              have := ih hn' line (col + 1) _ _ sc sl k r rest l2 c2 h
              have e1 : col + k + 1 = col + 1 + k := by omega
              rw [e1]
              exact this
          · simp only [if_neg hq] at h ⊢
            split at h <;> rename_i h5
            · rw [if_pos h5]
              rw [Prod.mk.injEq, Prod.mk.injEq, Prod.mk.injEq] at h
              obtain ⟨h6, h7, h8, h9⟩ := h
              subst h6; subst h7; subst h8; subst h9
              simp [shiftResult] <;> omega
            · rw [if_neg h5]
              have := ih hn' line (col + 1) _ _ sc sl k r rest l2 c2 h
              have e1 : col + k + 1 = col + 1 + k := by omega
              rw [e1]
              exact this

/-- Whitespace characters are not quotes. -/
theorem rustIsWhitespace_ne_quote (c : Char) (h : rustIsWhitespace c = true) :
    c ≠ '"' := by
  simp [rustIsWhitespace] at h
  rcases h with ((((rfl | rfl) | rfl) | rfl) | rfl) | rfl <;> decide

/-- No two-character operator has a whitespace second character. -/
theorem is_op_pair_ws (c d : Char) (hd : rustIsWhitespace d = true) :
    Operator.is_operator [c, d] = false := by
  simp [rustIsWhitespace] at hd
  rcases hd with ((((rfl | rfl) | rfl) | rfl) | rfl) | rfl <;>
    simp [Operator.is_operator]

/-- No whitespace character is a special character. -/
theorem is_special_ws (d : Char) (hd : rustIsWhitespace d = true) :
    Token.is_special_char d = false := by
  simp [rustIsWhitespace] at hd
  rcases hd with ((((rfl | rfl) | rfl) | rfl) | rfl) | rfl <;> decide

/-- Appending trailing whitespace does not change the token produced by a
scan that consumed its whole cursor outside a string (even quote count):
the appended run returns the same token with some suffix of the whitespace
left over. -/
theorem lexNextGo_append_ws :
    ∀ (t w2 : List Char), (∀ d ∈ w2, rustIsWhitespace d = true) →
    ∀ (line col : Nat) (inStr : Bool) (word : List Char) (sc sl : Nat)
      (ti : TokenInfo) (l' c' : Nat),
      ((if inStr then 1 else 0) + t.count '"') % 2 = 0 →
      (inStr = true → word ≠ []) →
      lexNextGo t line col inStr word sc sl = (.ok ti, ([], l', c')) →
      ∃ rest2 l2 c2, lexNextGo (t ++ w2) line col inStr word sc sl =
        (.ok ti, (rest2, l2, c2)) ∧ rest2 <:+ w2 := by
  intro t
  induction t with
  | nil =>
    intro w2 hw2 line col inStr word sc sl ti l' c' hpar hws h
    have hinstr : inStr = false := by
      cases hin : inStr
      · rfl
      · rw [hin] at hpar
        simp at hpar
    subst hinstr
    simp only [lexNextGo] at h
    split at h <;> rename_i hword
    · simp at h
    · rw [Prod.mk.injEq] at h
      obtain ⟨h1, -⟩ := h
      injection h1 with h1
      subst h1
      rw [List.nil_append]
      rcases w2 with _ | ⟨d, w2'⟩
      · refine ⟨[], line, col, ?_, List.suffix_rfl⟩
        simp only [lexNextGo]
        rw [if_neg hword]
      · have hd := hw2 d (List.mem_cons_self d w2')
        by_cases hdn : d = '\n'
        · refine ⟨w2', line + 1, 0, ?_, List.suffix_cons d w2'⟩
          simp only [lexNextGo]
          rw [if_pos hdn, if_neg hword]
        · refine ⟨w2', line, col + 1, ?_, List.suffix_cons d w2'⟩
          simp only [lexNextGo]
          rw [if_neg hdn, if_pos (by simp [hd]), if_pos (by simpa using hword)]
  | cons c t ih =>
    intro w2 hw2 line col inStr word sc sl ti l' c' hpar hws h
    have hparX : ∀ b : Bool, (cond : ((if b then 1 else 0) + (c :: t).count '"') % 2 = 0) →
        ((if (if c = '"' then !b else b) then 1 else 0) + t.count '"') % 2 = 0 := by
      intro b hb
      by_cases hc : c = '"' <;> cases b <;>
        simp [hc, List.count_cons] at hb ⊢ <;> omega
    rw [List.cons_append]
    simp only [lexNextGo] at h ⊢
    split at h <;> rename_i h1
    · -- newline
      rw [if_pos h1]
      split at h <;> rename_i h2
      · -- empty word: restart
        rw [if_pos h2]
        have hinstr : inStr = false := by
          cases hin : inStr
          · rfl
          · exact absurd (by simpa using h2) (hws hin)
        refine ih w2 hw2 (line + 1) 0 false [] 1 (line + 1) ti l' c' ?_ (by simp) h
        rw [hinstr] at hpar
        have hcq : c ≠ '"' := by
          rw [h1]
          decide
        simpa [List.count_cons, hcq] using hpar
      · -- word nonempty: emit, t is exhausted
        rw [if_neg h2]
        rw [Prod.mk.injEq, Prod.mk.injEq, Prod.mk.injEq] at h
        obtain ⟨hti, hrest, -, -⟩ := h
        injection hti with hti
        subst hti
        subst hrest
        exact ⟨w2, line + 1, 0, by simp, List.suffix_rfl⟩
    · rw [if_neg h1]
      split at h <;> rename_i h2
      · -- whitespace
        rw [if_pos h2]
        split at h <;> rename_i h3
        · rw [if_pos h3]
          rw [Prod.mk.injEq, Prod.mk.injEq, Prod.mk.injEq] at h
          obtain ⟨hti, hrest, -, -⟩ := h
          injection hti with hti
          subst hti
          subst hrest
          exact ⟨w2, line, col + 1, by simp, List.suffix_rfl⟩
        · rw [if_neg h3]
          have hcq : c ≠ '"' :=
            rustIsWhitespace_ne_quote c (Bool.and_eq_true _ _ |>.mp h2).2
          refine ih w2 hw2 line (col + 1) inStr word (sc + 1) sl ti l' c' ?_ hws h
          simpa [List.count_cons, hcq] using hpar
      · rw [if_neg h2]
        rcases t with _ | ⟨e, t'⟩
        · -- last character of the token
          simp only [List.head?_nil, Option.getD_none, List.nil_append] at h ⊢
          rw [if_neg (by simp)] at h
          have hop2 : ¬ ((!inStr && decide ((w2.head?.getD ' ') ≠ ' ')
              && Operator.is_operator [c, w2.head?.getD ' ']) = true) := by
            rcases w2 with _ | ⟨d, w2'⟩
            · simp
            · simp [is_op_pair_ws c d (hw2 d (List.mem_cons_self d w2'))]
          rw [if_neg hop2]
          split at h <;> rename_i h4
          · -- special char or single-char operator
            rw [if_pos h4]
            rw [Prod.mk.injEq, Prod.mk.injEq, Prod.mk.injEq] at h
            obtain ⟨hti, -, -, -⟩ := h
            injection hti with hti
            subst hti
            exact ⟨w2, line, col + 1, rfl, List.suffix_rfl⟩
          · rw [if_neg h4]
            rw [if_neg (by simp [Token.is_special_char])] at h
            have hsp2 : ¬ ((!(if c = '"' then !inStr else inStr)
                && Token.is_special_char (w2.head?.getD ' ')) = true) := by
              rcases w2 with _ | ⟨d, w2'⟩
              · simp [Token.is_special_char]
              · simp [is_special_ws d (hw2 d (List.mem_cons_self d w2'))]
            rw [if_neg hsp2]
            have := ih w2 hw2 line (col + 1) (if c = '"' then !inStr else inStr)
              (word ++ [c]) sc sl ti l' c' (hparX inStr hpar) (by simp) h
            simpa using this
        · -- more of the token follows
          simp only [List.cons_append, List.head?_cons, Option.getD_some] at h ⊢
          split at h <;> rename_i h3
          · -- two-char operator
            rw [if_pos h3]
            rw [Prod.mk.injEq, Prod.mk.injEq, Prod.mk.injEq] at h
            obtain ⟨hti, hrest, -, -⟩ := h
            injection hti with hti
            subst hti
            simp only [List.tail_cons] at hrest ⊢
            subst hrest
            exact ⟨w2, line, col + 1 + 1, by simp, List.suffix_rfl⟩
          · rw [if_neg h3]
            split at h <;> rename_i h4
            · -- special char: would leave e :: t' unread, impossible
              rw [Prod.mk.injEq, Prod.mk.injEq, Prod.mk.injEq] at h
              obtain ⟨-, hrest, -, -⟩ := h
              exact absurd hrest (by simp)
            · rw [if_neg h4]
              by_cases h5 : (!(if c = '"' then !inStr else inStr)
                  && Token.is_special_char e) = true
              · -- word break would leave e :: t' unread, impossible
                rw [if_pos h5] at h
                rw [Prod.mk.injEq, Prod.mk.injEq, Prod.mk.injEq] at h
                obtain ⟨-, hrest, -, -⟩ := h
                exact absurd hrest (by simp)
              · rw [if_neg h5] at h
                rw [if_neg h5]
                have := ih w2 hw2 line (col + 1) (if c = '"' then !inStr else inStr)
                  (word ++ [c]) sc sl ti l' c' (hparX inStr hpar) (by simp) h
                simpa using this


/-- C7 (amended): for a single token `t` (lexing alone consumes all of `t`,
`t` has no newline and an even number of quotes) surrounded by whitespace
where the leading run `w1` has no newline, the first `next` returns `t`'s
token with `start_column` shifted by the leading width (`= 1 + width` when
`t` starts at column 1 alone), and the following `next` call returns
`EndOfFileReached`. -/
theorem lexer_single_token_whitespace (w1 t w2 : List Char) (ti : TokenInfo)
    (l' c' : Nat)
    (hw1 : ∀ d ∈ w1, rustIsWhitespace d = true ∧ d ≠ '\n')
    (hw2 : ∀ d ∈ w2, rustIsWhitespace d = true)
    (hnt : '\n' ∉ t)
    (hq : t.count '"' % 2 = 0)
    (ht : lexerNextRaw t 1 0 = (.ok ti, ([], l', c'))) :
    ∃ rest2 l2 c2,
      lexerNextRaw (w1 ++ t ++ w2) 1 0 =
        (.ok ⟨ti.line, ti.start_column + w1.length, ti.token⟩, (rest2, l2, c2))
      ∧ (lexerNextRaw rest2 l2 c2).1 = .error .EndOfFileReached := by
  have ha : lexNextGo (w1 ++ (t ++ w2)) 1 0 false [] 1 1 =
      lexNextGo (t ++ w2) 1 (0 + w1.length) false [] (1 + w1.length) 1 :=
    lexNextGo_skip_ws w1 hw1 (t ++ w2) 1 0 1 1
  have hb := lexNextGo_shift t hnt 1 0 false [] 1 1 w1.length
    (.ok ti) [] l' c' ht
  have hc := lexNextGo_append_ws t w2 hw2 1 (0 + w1.length) false []
    (1 + w1.length) 1 ⟨ti.line, ti.start_column + w1.length, ti.token⟩
    l' (c' + w1.length) (by simpa using hq) (by simp)
    (by simpa [shiftResult] using hb)
  obtain ⟨rest2, l2, c2, hc1, hc2⟩ := hc
  refine ⟨rest2, l2, c2, ?_, ?_⟩
  · rw [List.append_assoc]
    have hdef : lexerNextRaw (w1 ++ (t ++ w2)) 1 0 =
        lexNextGo (w1 ++ (t ++ w2)) 1 0 false [] 1 1 := by rfl
    rw [hdef, ha, hc1]
  · have hrest : ∀ e ∈ rest2, rustIsWhitespace e = true := fun e he =>
      hw2 e (hc2.subset he)
    have hdef : lexerNextRaw rest2 l2 c2 =
        lexNextGo rest2 l2 c2 false [] (c2 + 1) l2 := rfl
    rw [hdef]
    exact lexNextGo_all_ws rest2 hrest l2 c2 (c2 + 1) l2

/-- C7 counterexample: with leading whitespace `"\n"` (width 1) before
`"a"`, the token is emitted at `start_column` 1, not `1 + 1`: a newline in
the leading whitespace resets the column instead of advancing it. -/
theorem single_token_newline_ws_counterexample :
    (lexerNextRaw ['\n', 'a'] 1 0).1 = .ok ⟨2, 1, .Identifier ['a']⟩
    ∧ (1 : Nat) ≠ 1 + ['\n'].length :=
  ⟨rfl, by decide⟩

/-- C7 witness: `" a  "`. -/
theorem lexer_single_token_whitespace_witness :
    ((∀ d ∈ [' '], rustIsWhitespace d = true ∧ d ≠ '\n')
     ∧ (∀ d ∈ [' ', ' '], rustIsWhitespace d = true)
     ∧ '\n' ∉ ['a'] ∧ ['a'].count '"' % 2 = 0
     ∧ lexerNextRaw ['a'] 1 0 = (.ok ⟨1, 1, .Identifier ['a']⟩, ([], 1, 1)))
    ∧ ∃ rest2 l2 c2,
        lexerNextRaw ([' '] ++ ['a'] ++ [' ', ' ']) 1 0 =
          (.ok ⟨1, 1 + [' '].length, .Identifier ['a']⟩, (rest2, l2, c2))
        ∧ (lexerNextRaw rest2 l2 c2).1 = .error .EndOfFileReached :=
  ⟨⟨by decide, by decide, by decide, by decide, rfl⟩,
   lexer_single_token_whitespace [' '] ['a'] [' ', ' ']
     ⟨1, 1, .Identifier ['a']⟩ 1 1 (by decide) (by decide) (by decide)
     (by decide) rfl⟩
